import Mathlib

/-!
Verification development for the go-vite repository.

The file embeds, as executable Lean definitions:
  * the quota engine of src/vm/quota/quota.go (CalcQuotaV2, getIndexInSection,
    DataGasCost, IntrinsicGasCost, CalcQuotaUsed),
  * the storage facade vmDb.GetValue / SetValue / DeleteValue appended to
    src/rpcapi/api/filters/subscribe.go,
  * the DEX Fund contract methods (UserDeposit, NewOrder, SettleOrders), whose
    implementation is not shipped under src (only its test is); those are
    modelled from the specification text.

Machine integers (Go uint64) are modelled as Nat, with wrap-around made
explicit through sub64 / add64 where the Go code performs uint64 arithmetic
that may overflow.  Arbitrary-precision big.Float values are modelled as
exact rationals.
-/

/-! ## uint64 arithmetic helpers -/

/-- Upper bound of Go's uint64, helper.MaxUint64 in the source. -/
def MaxUint64 : ℕ := 2 ^ 64 - 1

/-- Go uint64 subtraction with wrap-around (a - b mod 2^64). -/
def sub64 (a b : ℕ) : ℕ := (2 ^ 64 + a - b) % 2 ^ 64

/-- Go uint64 addition with wrap-around. -/
def add64 (a b : ℕ) : ℕ := (a + b) % 2 ^ 64

theorem sub64_eq_sub {a b : ℕ} (hba : b ≤ a) (ha : a < 2 ^ 64) : sub64 a b = a - b := by
  unfold sub64
  have h1 : 2 ^ 64 + a - b = 2 ^ 64 + (a - b) := by omega
  rw [h1, Nat.add_mod_left]
  exact Nat.mod_eq_of_lt (by omega)

theorem add64_eq_add {a b : ℕ} (h : a + b < 2 ^ 64) : add64 a b = a + b := by
  unfold add64
  exact Nat.mod_eq_of_lt h

/-! ## Section table lookup (quota.go, getIndexInSection / getExactIndex)

The Go code walks the precomputed monotone table sectionList (a protocol
constant declared outside the files under src) with a binary search.  The
table entries are big.Float constants; they are modelled as exact rationals
and the table itself is passed as an explicit parameter. -/

/-- Translation of getExactIndex: returns index when sectionList[index] <= x
or index is 0, and index-1 otherwise. -/
def getExactIndex (sl : List ℚ) (x : ℚ) (index : ℕ) : ℕ :=
  if sl.getD index 0 ≤ x ∨ index = 0 then index else index - 1

/-- Translation of getIndexInSectionRange.  The Go recursion terminates because
the span right-left strictly decreases; an explicit fuel argument makes the
function total, and the fuel is chosen large enough in getIndexInSection that
the zero-fuel fallback is never reached on reachable inputs. -/
def getIndexInSectionRange (sl : List ℚ) (x : ℚ) : ℕ → ℕ → ℕ → ℕ
  | 0, left, _right => getExactIndex sl x left
  | fuel + 1, left, right =>
    if left = right then getExactIndex sl x left
    else
      let mid := (left + right + 1) / 2
      if sl.getD mid 0 = x then mid
      else if x < sl.getD mid 0 then getIndexInSectionRange sl x fuel left (mid - 1)
      else getIndexInSectionRange sl x fuel mid right

/-- Translation of getIndexInSection: binary search over the whole table. -/
def getIndexInSection (sl : List ℚ) (x : ℚ) : ℕ :=
  getIndexInSectionRange sl x sl.length 0 (sl.length - 1)

/-! ## Quota engine state model (quota.go, CalcQuotaV2) -/

/-- Block type of a ledger account block; only the receive-error distinction is
inspected by the quota engine. -/
inductive QBlockType
  | receiveError
  | other
  deriving DecidableEq, Repr

/-- Account block data consulted by CalcQuotaV2 while walking the previous
account-block chain. -/
structure QAccountBlock where
  snapshotHash : ℕ
  blockType : QBlockType
  nonce : List ℕ
  quota : ℕ
  prevHash : ℕ
  deriving DecidableEq, Repr

/-- Database view used by CalcQuotaV2: the current snapshot block (hash and
height), the chain of previous account blocks of the address (head =
db.PrevAccountBlock, the tail reached through GetAccountBlockByHash on the
PrevHash links), the snapshot height lookup GetSnapshotBlockByHash(...).Height,
and the pledge beneficial amount of the address. -/
structure QuotaDb where
  currentSnapshotHash : ℕ
  currentHeight : ℕ
  snapshotHeightOf : ℕ → ℕ
  prevChain : List QAccountBlock
  pledgeAmount : ℕ

/-- Protocol constants of the quota engine (sectionList, quotaForSection,
paramA, paramB, maxQuotaHeightGap) declared outside the files under src;
they are carried as an explicit parameter record. -/
structure QuotaParams where
  sectionList : List ℚ
  quotaForSection : ℕ
  paramA : ℚ
  paramB : ℚ
  maxQuotaHeightGap : ℕ

/-- Largest quantum the section table can produce: getIndexInSection returns
an index of the table, at most length-1, and the quantum is that index times
quotaForSection.  This is a derived bound of the table, not the spec's
per-account ceiling (see quotaLimit). -/
def maxSectionQuantum (p : QuotaParams) : ℕ := (p.sectionList.length - 1) * p.quotaForSection

/-- Modelled from the spec: the fixed per-account quota ceiling, an independent
protocol constant (the quotaLimit constant that quota.go line 48 reads for the
CalcQuotaV1 cap), declared outside the files under src; the testnet reference
value 1000000 is used.  CalcQuotaV2 itself applies no cap at this ceiling. -/
def quotaLimit : ℕ := 1000000

/-- Translation of defaultDifficulty (quota.go line 187). -/
def defaultDifficulty : ℕ := 0xffffffc000000000

/-- Translation of IsPoW: a block claims PoW when its nonce is non-empty. -/
def IsPoW (nonce : List ℕ) : Bool := nonce.length > 0

/-- Exit branch of the CalcQuotaV2 loop: reached when the previous block is
absent or refers to a different snapshot.  x is the big.Float accumulator
(exact rational here), quotaWithoutPoW the pledge-only quantum; when the call
claims PoW the difficulty term is added and the quantum recomputed. -/
def calcQuotaV2Exit (db : QuotaDb) (p : QuotaParams) (isPoW : Bool)
    (difficultyForCalc : ℕ) (quotaUsed : ℕ) (prevBlock : Option QAccountBlock) : ℕ × ℕ :=
  let xBase : ℚ :=
    match prevBlock with
    | none => 0
    | some pb =>
      if db.pledgeAmount = 0 then 0
      else (db.pledgeAmount : ℚ) *
        ((min p.maxQuotaHeightGap (sub64 db.currentHeight (db.snapshotHeightOf pb.snapshotHash)) : ℕ) * p.paramA)
  let quotaWithoutPoW : ℕ :=
    match prevBlock with
    | none => 0
    | some _ =>
      if db.pledgeAmount = 0 then 0
      else getIndexInSection p.sectionList xBase * p.quotaForSection
  let quotaTotal : ℕ :=
    if isPoW then
      getIndexInSection p.sectionList (xBase + (difficultyForCalc : ℚ) * p.paramB) * p.quotaForSection
    else quotaWithoutPoW
  if quotaTotal < quotaUsed then (0, 0)
  else (quotaTotal - quotaUsed, quotaTotal - quotaWithoutPoW)

/-- Loop of CalcQuotaV2 over the previous account-block chain.  Mirrors the Go
code: each iteration first assigns flag = IsPoW(prevBlock.Nonce), then quick-
fails on a receive-error block, then tests IsPoW(prevBlock.Nonce) and, inside,
tests flag (which the preceding assignment has just made equal, so the inner
branch setting flag = true and difficultyForCalc = defaultDifficulty is dead
code, retained here for fidelity). -/
def calcQuotaV2Loop (db : QuotaDb) (p : QuotaParams) (isPoW : Bool) :
    List QAccountBlock → ℕ → Bool → ℕ → ℕ × ℕ
  | [], quotaUsed, _flag, difficultyForCalc =>
    calcQuotaV2Exit db p isPoW difficultyForCalc quotaUsed none
  | prevBlock :: rest, quotaUsed, _flag, difficultyForCalc =>
    if prevBlock.snapshotHash = db.currentSnapshotHash then
      let flag := IsPoW prevBlock.nonce
      if prevBlock.blockType = QBlockType.receiveError then (0, 0)
      else if IsPoW prevBlock.nonce then
        if flag then (0, 0)
        else calcQuotaV2Loop db p isPoW rest (add64 quotaUsed prevBlock.quota) true defaultDifficulty
      else calcQuotaV2Loop db p isPoW rest (add64 quotaUsed prevBlock.quota) flag difficultyForCalc
    else calcQuotaV2Exit db p isPoW difficultyForCalc quotaUsed (some prevBlock)

/-- Translation of CalcQuotaV2.  difficulty models the big.Int argument (never
negative at any call site); isPoW = difficulty.Sign() > 0. -/
def CalcQuotaV2 (db : QuotaDb) (p : QuotaParams) (difficulty : ℕ) : ℕ × ℕ :=
  calcQuotaV2Loop db p (decide (0 < difficulty)) db.prevChain 0 false difficulty

/-! ## Gas cost functions (quota.go, DataGasCost / IntrinsicGasCost) -/

inductive GasErr
  | gasUintOverflow
  deriving DecidableEq, Repr

/-- Modelled from the spec: the per-byte data gas constants txDataNonZeroGas
and txDataZeroGas and the base costs TxGas and txContractCreationGas are
protocol constants declared outside the files under src; the spec requires
only that non-zero bytes cost more than zero bytes, and the reference values
are used here. -/
def txDataZeroGas : ℕ := 4

/-- Modelled from the spec: per-byte cost of a non-zero data byte (see
txDataZeroGas). -/
def txDataNonZeroGas : ℕ := 68

/-- Modelled from the spec: base gas of a plain transaction (see
txDataZeroGas). -/
def TxGas : ℕ := 21000

/-- Modelled from the spec: base gas of a contract-creation transaction (see
txDataZeroGas). -/
def txContractCreationGas : ℕ := 53000

/-- Count of non-zero bytes of a data payload. -/
def nonZeroCount (data : List ℕ) : ℕ := (data.filter (fun b => b != 0)).length

/-- Translation of DataGasCost: per-byte cost of the payload with the two
division-based overflow guards of the Go code. -/
def DataGasCost (data : List ℕ) : Except GasErr ℕ :=
  if 0 < data.length then
    let nonZeroByteCount := nonZeroCount data
    if MaxUint64 / txDataNonZeroGas < nonZeroByteCount then .error .gasUintOverflow
    else
      let gas := nonZeroByteCount * txDataNonZeroGas
      let zeroByteCount := data.length - nonZeroByteCount
      if (MaxUint64 - gas) / txDataZeroGas < zeroByteCount then .error .gasUintOverflow
      else .ok (gas + zeroByteCount * txDataZeroGas)
  else .ok 0

/-- Translation of IntrinsicGasCost: base gas plus data gas, with the
overflow guard MaxUint64 - gas < gasData. -/
def IntrinsicGasCost (data : List ℕ) (isCreate : Bool) : Except GasErr ℕ :=
  let gas := if isCreate then txContractCreationGas else TxGas
  match DataGasCost data with
  | .error _ => .error .gasUintOverflow
  | .ok gasData =>
    if MaxUint64 - gas < gasData then .error .gasUintOverflow
    else .ok (gas + gasData)

/-! ## CalcQuotaUsed (quota.go) -/

/-- Execution error kinds distinguished by CalcQuotaUsed: ErrOutOfQuota versus
any other non-nil error. -/
inductive VmErr
  | outOfQuota
  | otherError
  deriving DecidableEq, Repr

/-- Translation of CalcQuotaUsed; err models the Go error argument (none for
nil). -/
def CalcQuotaUsed (quotaTotal quotaAddition quotaLeft quotaRefund : ℕ)
    (err : Option VmErr) : ℕ :=
  if err = some VmErr.outOfQuota then sub64 quotaTotal quotaAddition
  else if err ≠ none then
    if sub64 quotaTotal quotaLeft < quotaAddition then 0
    else sub64 (sub64 quotaTotal quotaAddition) quotaLeft
  else
    if sub64 quotaTotal quotaLeft < quotaAddition then 0
    else
      sub64 (sub64 (sub64 quotaTotal quotaLeft) quotaAddition)
        (min quotaRefund (sub64 (sub64 quotaTotal quotaAddition) quotaLeft / 2))

/-! ## Storage facade (vm_db snippet appended to src/rpcapi/api/filters/subscribe.go) -/

/-- Failure of the committed-snapshot lookup (getPrevStateSnapshot or the
snapshot GetValue may return an error). -/
inductive StoreErr
  | ioFailure
  deriving DecidableEq, Repr

/-- View of a vmDb: the transient unsaved overlay (most recent write first) and
the committed prior snapshot, the latter external to the files under src and
modelled as an opaque fallible lookup. -/
structure VmDb where
  unsaved : List (List ℕ × List ℕ)
  original : List ℕ → Except StoreErr (List ℕ)

/-- Lookup in the unsaved overlay (db.unsaved.GetValue: value plus ok flag,
modelled as an Option). -/
def unsavedGetValue (u : List (List ℕ × List ℕ)) (key : List ℕ) : Option (List ℕ) :=
  (u.find? (fun p => p.1 == key)).map (fun p => p.2)

/-- Translation of vmDb.GetOriginalValue: value from the committed prior
snapshot. -/
def VmDb.GetOriginalValue (db : VmDb) (key : List ℕ) : Except StoreErr (List ℕ) :=
  db.original key

/-- Translation of vmDb.GetValue: the unsaved overlay is consulted first, then
the committed prior snapshot. -/
def VmDb.GetValue (db : VmDb) (key : List ℕ) : Except StoreErr (List ℕ) :=
  match unsavedGetValue db.unsaved key with
  | some v => .ok v
  | none => db.GetOriginalValue key

/-- Translation of vmDb.SetValue: the write goes to the unsaved overlay. -/
def VmDb.SetValue (db : VmDb) (key value : List ℕ) : VmDb :=
  { db with unsaved := (key, value) :: db.unsaved }

/-- Translation of vmDb.DeleteValue: a delete is a SetValue of empty bytes. -/
def VmDb.DeleteValue (db : VmDb) (key : List ℕ) : VmDb :=
  db.SetValue key []

/-! ## DEX Fund contract

Modelled from the spec: the implementation of the Fund contract methods
(contracts.MethodDexFundUserDeposit, MethodDexFundNewOrder,
MethodDexFundSettleOrders) is not among the files under src; only its test
(src/unnamed/part_000) is.  The definitions below follow the specification
text of sections 3, 4.D and 7, and the concrete scenarios are the ones the
test asserts. -/

/-- Account address, modelled as a string tag. -/
abbrev DexAddress := String

/-- Asset identifier (10-byte token tag), modelled as a string tag. -/
abbrev TokenId := String

/-- Token VITE of the test scenarios. -/
def VITE : TokenId := "VITE TOKEN"

/-- Token ETH of the test scenarios. -/
def ETH : TokenId := "ETH  TOKEN"

/-- Well-known address of the Fund contract. -/
def AddressDexFund : DexAddress := "AddressDexFund"

/-- Well-known address of the Trade contract. -/
def AddressDexTrade : DexAddress := "AddressDexTrade"

/-- User address of the test scenarios. -/
def UserAddr : DexAddress := "12345678901234567890"

/-- Modelled from the spec: error kinds of the DEX subsystem (section 7). -/
inductive DexErr
  | TokenInvalid
  | InvalidArgument
  | Unauthorized
  | InsufficientFunds
  | ConsistencyViolation
  deriving DecidableEq, Repr

/-- Modelled from the spec: an account entry of a fund record,
asset/available/locked. -/
structure DexAccount where
  asset : TokenId
  available : ℕ
  locked : ℕ
  deriving DecidableEq, Repr

/-- Modelled from the spec: a per-user fund record, a list of account
entries (at most one per asset). -/
structure Fund where
  accounts : List DexAccount
  deriving DecidableEq, Repr

/-- Modelled from the spec: order status values. -/
inductive OrderStatus
  | Pending
  | PartiallyExecuted
  | FullyExecuted
  | Cancelled
  deriving DecidableEq, Repr

/-- Modelled from the spec: an order record; side = true means sell; price is
the fixed-point decimal, held as an exact rational. -/
structure Order where
  id : ℕ
  address : DexAddress
  tradeAsset : TokenId
  quoteAsset : TokenId
  side : Bool
  otype : ℕ
  price : ℚ
  quantity : ℕ
  amount : ℕ
  status : OrderStatus
  timestamp : ℤ
  deriving DecidableEq, Repr

/-- Modelled from the spec: a settle action, absent fields being zero. -/
structure SettleAction where
  address : DexAddress
  asset : TokenId
  incAvailable : ℕ
  decAvailable : ℕ
  incLocked : ℕ
  decLocked : ℕ
  deriving DecidableEq, Repr

/-- Modelled from the spec: an account block produced by DoSend or appended by
DoReceive; the opaque data payload of a NewOrder block is represented by the
decoded order itself (the record codec round-trips). -/
structure DexBlock where
  fromAddr : DexAddress
  toAddr : DexAddress
  tokenId : TokenId
  amount : ℕ
  orderPayload : Option Order
  deriving DecidableEq, Repr

/-- Round-half-even of an exact rational, used by the amount computation of
NewOrder per the spec. -/
def roundHalfEven (q : ℚ) : ℤ :=
  let f : ℤ := Int.floor q
  let r : ℚ := q - f
  if r < 1 / 2 then f
  else if 1 / 2 < r then f + 1
  else if f % 2 = 0 then f else f + 1

/-- Lookup of the account entry of an asset inside a fund record. -/
def findAccount (accs : List DexAccount) (asset : TokenId) : Option DexAccount :=
  accs.find? (fun a => a.asset == asset)

/-- Replacement (or first-touch creation at the end) of the account entry of an
asset inside a fund record. -/
def setAccount (accs : List DexAccount) (asset : TokenId) (av lk : ℕ) : List DexAccount :=
  match accs with
  | [] => [⟨asset, av, lk⟩]
  | a :: rest =>
    if a.asset == asset then ⟨asset, av, lk⟩ :: rest
    else a :: setAccount rest asset av lk

/-- Per-user fund storage of the Fund contract (key fund_prefix plus address),
modelled as an association list. -/
abbrev FundStore := List (DexAddress × Fund)

/-- Lookup-or-create of the fund record of a user. -/
def getFund (store : FundStore) (addr : DexAddress) : Fund :=
  ((store.find? (fun p => p.1 == addr)).map (fun p => p.2)).getD ⟨[]⟩

/-- Replacement (or creation) of the fund record of a user. -/
def setFund (store : FundStore) (addr : DexAddress) (fund : Fund) : FundStore :=
  match store with
  | [] => [(addr, fund)]
  | p :: rest =>
    if p.1 == addr then (addr, fund) :: rest
    else p :: setFund rest addr fund

/-- Modelled from the spec: UserDeposit.DoSend.  Precondition
token_registered(asset), else TokenInvalid (and no block is produced); on
success the send block becomes a transfer send with token = asset,
amount = amount, to = AddressDexFund. -/
def userDepositDoSend (registry : List TokenId) (block : DexBlock)
    (asset : TokenId) (amount : ℕ) : Except DexErr DexBlock :=
  if asset ∈ registry then
    .ok { block with tokenId := asset, amount := amount, toAddr := AddressDexFund }
  else .error .TokenInvalid

/-- Modelled from the spec: UserDeposit.DoReceive.  Locates or creates the fund
record of the beneficiary and credits available by the amount. -/
def userDepositDoReceive (store : FundStore) (beneficiary : DexAddress)
    (asset : TokenId) (amount : ℕ) : FundStore :=
  let fund := getFund store beneficiary
  let acc := (findAccount fund.accounts asset).getD ⟨asset, 0, 0⟩
  setFund store beneficiary ⟨setAccount fund.accounts asset (acc.available + amount) acc.locked⟩

/-- Modelled from the spec: NewOrder.DoSend.  Validates registered distinct
assets, positive price and quantity and a known type, then overwrites
amount := round-half-even(quantity * price), status := Pending,
timestamp := block timestamp, id := fresh id, and returns the normalized
order that replaces the send payload. -/
def newOrderDoSend (registry : List TokenId) (o : Order) (ts : ℤ) (newId : ℕ) :
    Except DexErr Order :=
  if o.tradeAsset ∈ registry ∧ o.quoteAsset ∈ registry then
    if o.tradeAsset = o.quoteAsset ∨ o.price ≤ 0 ∨ o.quantity = 0 ∨ 1 < o.otype then
      .error .InvalidArgument
    else
      .ok { o with
            amount := (roundHalfEven ((o.quantity : ℚ) * o.price)).toNat,
            status := OrderStatus.Pending,
            timestamp := ts,
            id := newId }
  else .error .TokenInvalid

/-- Modelled from the spec: the lock asset and lock amount of an order,
sell giving (trade_asset, quantity) and buy giving (quote_asset, amount). -/
def lockAssetAmount (o : Order) : TokenId × ℕ :=
  if o.side then (o.tradeAsset, o.quantity) else (o.quoteAsset, o.amount)

/-- Modelled from the spec: NewOrder.DoReceive.  Requires
available >= lock_amount on the lock asset else InsufficientFunds, moves the
lock amount from available to locked, and appends exactly one send block from
AddressDexFund to AddressDexTrade carrying the canonical order. -/
def newOrderDoReceive (fund : Fund) (o : Order) : Except DexErr (Fund × List DexBlock) :=
  let la := lockAssetAmount o
  let acc := (findAccount fund.accounts la.1).getD ⟨la.1, 0, 0⟩
  if la.2 ≤ acc.available then
    .ok (⟨setAccount fund.accounts la.1 (acc.available - la.2) (acc.locked + la.2)⟩,
      [⟨AddressDexFund, AddressDexTrade, la.1, 0, some o⟩])
  else .error .InsufficientFunds

/-- Modelled from the spec: application of one settle action.  Looks up or
creates the target fund and asset entry, then applies
available += inc_available - dec_available and
locked += inc_locked - dec_locked, rejecting a negative result. -/
def applySettleAction (store : FundStore) (act : SettleAction) : Except DexErr FundStore :=
  let fund := getFund store act.address
  let acc := (findAccount fund.accounts act.asset).getD ⟨act.asset, 0, 0⟩
  let newAvail : ℤ := (acc.available : ℤ) + act.incAvailable - act.decAvailable
  let newLocked : ℤ := (acc.locked : ℤ) + act.incLocked - act.decLocked
  if newAvail < 0 ∨ newLocked < 0 then .error .ConsistencyViolation
  else .ok (setFund store act.address ⟨setAccount fund.accounts act.asset newAvail.toNat newLocked.toNat⟩)

/-- Modelled from the spec: SettleOrders.DoSend, caller must be
AddressDexTrade else Unauthorized. -/
def settleOrdersDoSend (caller : DexAddress) (actions : List SettleAction) :
    Except DexErr (List SettleAction) :=
  if caller = AddressDexTrade then .ok actions else .error .Unauthorized

/-- Modelled from the spec: SettleOrders.DoReceive, each action of the
envelope applied in order. -/
def settleOrdersDoReceive (store : FundStore) (actions : List SettleAction) :
    Except DexErr FundStore :=
  actions.foldlM applySettleAction store

/-! ## Theorems -/

theorem calcQuotaV2Exit_pledge_zero (db : QuotaDb) (p : QuotaParams)
    (hpl : db.pledgeAmount = 0) (dfc qU : ℕ) (pb : Option QAccountBlock) :
    calcQuotaV2Exit db p false dfc qU pb = (0, 0) := by
  unfold calcQuotaV2Exit
  cases pb <;> simp [hpl]

theorem calcQuotaV2Exit_no_prev (db : QuotaDb) (p : QuotaParams) (dfc qU : ℕ) :
    calcQuotaV2Exit db p false dfc qU none = (0, 0) := by
  unfold calcQuotaV2Exit
  simp

theorem calcQuotaV2Loop_pledge_zero (db : QuotaDb) (p : QuotaParams)
    (hpl : db.pledgeAmount = 0) :
    ∀ (chain : List QAccountBlock) (qU : ℕ) (flag : Bool) (dfc : ℕ),
      calcQuotaV2Loop db p false chain qU flag dfc = (0, 0) := by
  intro chain
  induction chain with
  | nil =>
    intro qU flag dfc
    simp only [calcQuotaV2Loop]
    exact calcQuotaV2Exit_pledge_zero db p hpl dfc qU none
  | cons b rest ih =>
    intro qU flag dfc
    simp only [calcQuotaV2Loop]
    by_cases h1 : b.snapshotHash = db.currentSnapshotHash
    · rw [if_pos h1]
      by_cases h2 : b.blockType = QBlockType.receiveError
      · simp [h2]
      · by_cases h3 : IsPoW b.nonce
        · simp [h2, h3]
        · simp [h2, h3, ih]
    · rw [if_neg h1]
      exact calcQuotaV2Exit_pledge_zero db p hpl dfc qU (some b)

/-- C10: with difficulty 0 (no PoW claim), CalcQuotaV2 returns (0, 0) whenever
the account has no previous account block (first block) or its pledge
beneficial amount is zero: pledge grants no quota on an account's first block
and an unpledged account can only obtain quota by claiming PoW. -/
theorem calcQuotaV2_first_block_or_no_pledge (db : QuotaDb) (p : QuotaParams)
    (h : db.prevChain = [] ∨ db.pledgeAmount = 0) :
    CalcQuotaV2 db p 0 = (0, 0) := by
  unfold CalcQuotaV2
  have hd : decide (0 < (0 : ℕ)) = false := rfl
  rw [hd]
  rcases h with h | h
  · rw [h]
    simp only [calcQuotaV2Loop]
    exact calcQuotaV2Exit_no_prev db p 0 0
  · exact calcQuotaV2Loop_pledge_zero db p h db.prevChain 0 false 0

theorem calcQuotaV2_first_block_or_no_pledge_witness :
    (([] : List QAccountBlock) = [] ∨ (5 : ℕ) = 0) ∧
    CalcQuotaV2 ⟨1, 10, fun _ => 0, [], 5⟩ ⟨[0, 2, 4], 21000, 1, 1, 86400⟩ 0 = (0, 0) :=
  ⟨Or.inl rfl,
   calcQuotaV2_first_block_or_no_pledge ⟨1, 10, fun _ => 0, [], 5⟩
     ⟨[0, 2, 4], 21000, 1, 1, 86400⟩ (Or.inl rfl)⟩

theorem calcQuotaV2Exit_some_noPow (db : QuotaDb) (p : QuotaParams) (dfc qU : ℕ)
    (pb : QAccountBlock) (hpl : db.pledgeAmount ≠ 0)
    (hle : qU ≤ getIndexInSection p.sectionList
        ((db.pledgeAmount : ℚ) *
          ((min p.maxQuotaHeightGap (sub64 db.currentHeight (db.snapshotHeightOf pb.snapshotHash)) : ℕ) * p.paramA)) *
        p.quotaForSection) :
    calcQuotaV2Exit db p false dfc qU (some pb) =
      (getIndexInSection p.sectionList
        ((db.pledgeAmount : ℚ) *
          ((min p.maxQuotaHeightGap (sub64 db.currentHeight (db.snapshotHeightOf pb.snapshotHash)) : ℕ) * p.paramA)) *
        p.quotaForSection - qU, 0) := by
  unfold calcQuotaV2Exit
  simp only [Bool.false_eq_true, if_false, hpl, ite_false]
  rw [if_neg (Nat.not_lt.mpr hle)]
  simp

/-- C1: evaluation of the code at a failing input for the claim.  The account
has positive pledge, the call claims no PoW quota (difficulty 0), and the sole
prior same-snapshot block carries a PoW nonce: CalcQuotaV2 returns (0, 0),
while the identical state without the nonce yields the pledge quota 42000.
The quick-fail thus zeroes a call that does not claim PoW quota, against the
claim, the code's own comment (only one block gets extra quota) and the
parallel guard of CalcQuotaV1 (nonce AND pow). -/
theorem calcQuotaV2_zeroes_non_pow_call_after_pow_nonce :
    CalcQuotaV2
      ⟨1, 10, fun _ => 5, [⟨1, QBlockType.other, [7], 0, 0⟩, ⟨2, QBlockType.other, [], 0, 0⟩], 1⟩
      ⟨[0, 2, 4], 21000, 1, 1, 86400⟩ 0 = (0, 0) ∧
    CalcQuotaV2
      ⟨1, 10, fun _ => 5, [⟨1, QBlockType.other, [], 0, 0⟩, ⟨2, QBlockType.other, [], 0, 0⟩], 1⟩
      ⟨[0, 2, 4], 21000, 1, 1, 86400⟩ 0 = (42000, 0) := by
  constructor
  · show calcQuotaV2Loop _ _ false _ 0 false 0 = (0, 0)
    rw [calcQuotaV2Loop, if_pos rfl]
    norm_num [IsPoW]
  · show calcQuotaV2Loop _ _ false _ 0 false 0 = (42000, 0)
    rw [calcQuotaV2Loop, if_pos rfl]
    show (if QBlockType.other = QBlockType.receiveError then ((0 : ℕ), (0 : ℕ))
          else if IsPoW [] then _ else _) = (42000, 0)
    rw [if_neg (by decide), if_neg (by decide)]
    rw [calcQuotaV2Loop, if_neg (by decide)]
    rw [calcQuotaV2Exit_some_noPow _ _ _ _ _ (by decide)
        (by norm_num [add64, getIndexInSection, getIndexInSectionRange, getExactIndex, sub64])]
    norm_num [add64, getIndexInSection, getIndexInSectionRange, getExactIndex, sub64]

/-- C5: under quotaAddition + quotaLeft <= quotaTotal (and quotaTotal in the
uint64 range), CalcQuotaUsed returns quotaTotal - quotaAddition on OutOfQuota,
and quotaTotal - quotaAddition - quotaLeft minus the refund
min(quotaRefund, (quotaTotal - quotaAddition - quotaLeft) / 2) when there is
no error. -/
theorem calcQuotaUsed_spec (qt qa ql qr : ℕ)
    (h : qa + ql ≤ qt) (hqt : qt < 2 ^ 64) :
    CalcQuotaUsed qt qa ql qr (some VmErr.outOfQuota) = qt - qa ∧
    CalcQuotaUsed qt qa ql qr none = qt - qa - ql - min qr ((qt - qa - ql) / 2) := by
  have h2 : sub64 qt qa = qt - qa := sub64_eq_sub (by omega) hqt
  have h1 : sub64 qt ql = qt - ql := sub64_eq_sub (by omega) hqt
  have h3 : sub64 (qt - qa) ql = qt - qa - ql := sub64_eq_sub (by omega) (by omega)
  have h4 : sub64 (qt - ql) qa = qt - ql - qa := sub64_eq_sub (by omega) (by omega)
  have hmle : min qr ((qt - qa - ql) / 2) ≤ qt - ql - qa := by
    have hd := Nat.div_le_self (qt - qa - ql) 2
    have hmm := min_le_right qr ((qt - qa - ql) / 2)
    omega
  have h5 : sub64 (qt - ql - qa) (min qr ((qt - qa - ql) / 2)) =
      qt - ql - qa - min qr ((qt - qa - ql) / 2) :=
    sub64_eq_sub hmle (by omega)
  constructor
  · unfold CalcQuotaUsed
    rw [if_pos rfl, h2]
  · unfold CalcQuotaUsed
    rw [if_neg (by simp), if_neg (by simp), h1, if_neg (by omega), h2, h3, h4, h5]
    have he : qt - ql - qa = qt - qa - ql := by omega
    rw [he]

theorem calcQuotaUsed_spec_witness :
    10 + 20 ≤ 100 ∧ (100 : ℕ) < 2 ^ 64 ∧
    CalcQuotaUsed 100 10 20 7 none = 100 - 10 - 20 - min 7 ((100 - 10 - 20) / 2) :=
  ⟨by decide, by decide, (calcQuotaUsed_spec 100 10 20 7 (by decide) (by decide)).2⟩

/-- C6: DataGasCost returns exactly nonZero*txDataNonZeroGas +
zero*txDataZeroGas whenever that sum fits in uint64 and the GasUintOverflow
error exactly when it does not (which covers every overflowing intermediate
multiplication and the final addition); the non-zero per-byte cost is strictly
greater than the zero per-byte cost; and IntrinsicGasCost propagates the data
gas error and fails with GasUintOverflow exactly when base gas plus data gas
overflows uint64. -/
theorem dataGasCost_intrinsicGasCost_spec (data : List ℕ) (isCreate : Bool) :
    DataGasCost data =
      (if nonZeroCount data * txDataNonZeroGas +
            (data.length - nonZeroCount data) * txDataZeroGas ≤ MaxUint64
       then Except.ok (nonZeroCount data * txDataNonZeroGas +
            (data.length - nonZeroCount data) * txDataZeroGas)
       else Except.error GasErr.gasUintOverflow) ∧
    txDataZeroGas < txDataNonZeroGas ∧
    IntrinsicGasCost data isCreate =
      (match DataGasCost data with
       | Except.error e => Except.error e
       | Except.ok g =>
         if (if isCreate then txContractCreationGas else TxGas) + g ≤ MaxUint64
         then Except.ok ((if isCreate then txContractCreationGas else TxGas) + g)
         else Except.error GasErr.gasUintOverflow) := by
  have hnz : nonZeroCount data ≤ data.length := List.length_filter_le _ _
  have hdg : DataGasCost data =
      (if nonZeroCount data * txDataNonZeroGas +
            (data.length - nonZeroCount data) * txDataZeroGas ≤ MaxUint64
       then Except.ok (nonZeroCount data * txDataNonZeroGas +
            (data.length - nonZeroCount data) * txDataZeroGas)
       else Except.error GasErr.gasUintOverflow) := by
    unfold DataGasCost
    by_cases hlen : 0 < data.length
    · rw [if_pos hlen]
      by_cases hg1 : MaxUint64 / txDataNonZeroGas < nonZeroCount data
      · rw [if_pos hg1]
        have hov : MaxUint64 < nonZeroCount data * txDataNonZeroGas :=
          (Nat.div_lt_iff_lt_mul (by decide : 0 < txDataNonZeroGas)).mp hg1
        rw [if_neg (by omega)]
      · rw [if_neg hg1]
        have hgasle : nonZeroCount data * txDataNonZeroGas ≤ MaxUint64 := by
          have h := Nat.not_lt.mp hg1
          calc nonZeroCount data * txDataNonZeroGas
              ≤ (MaxUint64 / txDataNonZeroGas) * txDataNonZeroGas :=
                Nat.mul_le_mul_right _ h
            _ ≤ MaxUint64 := Nat.div_mul_le_self _ _
        by_cases hg2 : (MaxUint64 - nonZeroCount data * txDataNonZeroGas) / txDataZeroGas <
            data.length - nonZeroCount data
        · rw [if_pos hg2]
          have hov : MaxUint64 - nonZeroCount data * txDataNonZeroGas <
              (data.length - nonZeroCount data) * txDataZeroGas :=
            (Nat.div_lt_iff_lt_mul (by decide : 0 < txDataZeroGas)).mp hg2
          rw [if_neg (by omega)]
        · rw [if_neg hg2]
          have hle : (data.length - nonZeroCount data) * txDataZeroGas ≤
              MaxUint64 - nonZeroCount data * txDataNonZeroGas := by
            have h := Nat.not_lt.mp hg2
            calc (data.length - nonZeroCount data) * txDataZeroGas
                ≤ ((MaxUint64 - nonZeroCount data * txDataNonZeroGas) / txDataZeroGas) *
                    txDataZeroGas := Nat.mul_le_mul_right _ h
              _ ≤ MaxUint64 - nonZeroCount data * txDataNonZeroGas :=
                  Nat.div_mul_le_self _ _
          rw [if_pos (by omega)]
    · rw [if_neg hlen]
      have hlen0 : data.length = 0 := by omega
      have hnz0 : nonZeroCount data = 0 := by omega
      rw [hlen0, hnz0]
      norm_num
  refine ⟨hdg, by decide, ?_⟩
  unfold IntrinsicGasCost
  rcases he : DataGasCost data with e | g
  · cases e
    rfl
  · cases isCreate
    · show (if MaxUint64 - TxGas < g then Except.error GasErr.gasUintOverflow
            else Except.ok (TxGas + g)) =
        (if TxGas + g ≤ MaxUint64 then Except.ok (TxGas + g)
         else Except.error GasErr.gasUintOverflow)
      have hb : TxGas ≤ MaxUint64 := by decide
      by_cases h : TxGas + g ≤ MaxUint64
      · rw [if_neg (by omega), if_pos h]
      · rw [if_pos (by omega), if_neg h]
    · show (if MaxUint64 - txContractCreationGas < g then Except.error GasErr.gasUintOverflow
            else Except.ok (txContractCreationGas + g)) =
        (if txContractCreationGas + g ≤ MaxUint64 then Except.ok (txContractCreationGas + g)
         else Except.error GasErr.gasUintOverflow)
      have hb : txContractCreationGas ≤ MaxUint64 := by decide
      by_cases h : txContractCreationGas + g ≤ MaxUint64
      · rw [if_neg (by omega), if_pos h]
      · rw [if_pos (by omega), if_neg h]

/-- C9: GetValue returns the unsaved-overlay value whenever the overlay holds
one and otherwise the committed prior-snapshot value; a get after SetValue
returns the value just written; DeleteValue equals SetValue of empty bytes,
and after a delete a GetValue returns empty bytes, shadowing the snapshot. -/
theorem vmDb_overlay_spec :
    (∀ (db : VmDb) (k v : List ℕ), unsavedGetValue db.unsaved k = some v →
      db.GetValue k = Except.ok v) ∧
    (∀ (db : VmDb) (k : List ℕ), unsavedGetValue db.unsaved k = none →
      db.GetValue k = db.GetOriginalValue k) ∧
    (∀ (db : VmDb) (k v : List ℕ), (db.SetValue k v).GetValue k = Except.ok v) ∧
    (∀ (db : VmDb) (k : List ℕ), db.DeleteValue k = db.SetValue k []) ∧
    (∀ (db : VmDb) (k : List ℕ), (db.DeleteValue k).GetValue k = Except.ok []) := by
  have hset : ∀ (db : VmDb) (k v : List ℕ), (db.SetValue k v).GetValue k = Except.ok v := by
    intro db k v
    unfold VmDb.GetValue VmDb.SetValue unsavedGetValue
    rw [List.find?_cons_of_pos _ (by simp)]
    rfl
  refine ⟨?_, ?_, hset, fun _ _ => rfl, fun db k => hset db k []⟩
  · intro db k v h
    unfold VmDb.GetValue
    rw [h]
  · intro db k h
    unfold VmDb.GetValue
    rw [h]

theorem vmDb_overlay_spec_witness :
    unsavedGetValue (VmDb.mk [([1], [2])] (fun _ => Except.ok [9])).unsaved [1] = some [2] ∧
    (VmDb.mk [([1], [2])] (fun _ => Except.ok [9])).GetValue [1] = Except.ok [2] ∧
    unsavedGetValue (VmDb.mk [([1], [2])] (fun _ => Except.ok [9])).unsaved [3] = none ∧
    (VmDb.mk [([1], [2])] (fun _ => Except.ok [9])).GetValue [3] =
      (VmDb.mk [([1], [2])] (fun _ => Except.ok [9])).GetOriginalValue [3] ∧
    ((VmDb.mk [([1], [2])] (fun _ => Except.ok [9])).SetValue [1] [7]).GetValue [1] =
      Except.ok [7] ∧
    ((VmDb.mk [([1], [2])] (fun _ => Except.ok [9])).DeleteValue [1]).GetValue [1] =
      Except.ok [] :=
  ⟨rfl,
   vmDb_overlay_spec.1 (VmDb.mk [([1], [2])] (fun _ => Except.ok [9])) [1] [2] rfl,
   rfl,
   vmDb_overlay_spec.2.1 (VmDb.mk [([1], [2])] (fun _ => Except.ok [9])) [3] rfl,
   vmDb_overlay_spec.2.2.1 (VmDb.mk [([1], [2])] (fun _ => Except.ok [9])) [1] [7],
   vmDb_overlay_spec.2.2.2.2 (VmDb.mk [([1], [2])] (fun _ => Except.ok [9])) [1]⟩

/-- C4: UserDeposit.DoSend returns TokenInvalid (producing no block) whenever
the asset is not registered in the mintage registry, and on a registered
asset succeeds with the send block carrying token id = asset, amount = the
deposit amount and destination AddressDexFund. -/
theorem userDepositDoSend_spec (registry : List TokenId) (block : DexBlock)
    (asset : TokenId) (amount : ℕ) :
    (asset ∉ registry →
      userDepositDoSend registry block asset amount = Except.error DexErr.TokenInvalid) ∧
    (asset ∈ registry →
      userDepositDoSend registry block asset amount =
        Except.ok { block with tokenId := asset, amount := amount, toAddr := AddressDexFund }) := by
  constructor <;> intro h <;> simp [userDepositDoSend, h]

theorem userDepositDoSend_spec_witness :
    ETH ∉ [VITE] ∧
    userDepositDoSend [VITE] ⟨UserAddr, "", "", 0, none⟩ ETH 100 =
      Except.error DexErr.TokenInvalid ∧
    VITE ∈ [VITE] ∧
    userDepositDoSend [VITE] ⟨UserAddr, "", "", 0, none⟩ VITE 3000 =
      Except.ok ⟨UserAddr, AddressDexFund, VITE, 3000, none⟩ :=
  ⟨by decide,
   (userDepositDoSend_spec [VITE] ⟨UserAddr, "", "", 0, none⟩ ETH 100).1 (by decide),
   by decide,
   (userDepositDoSend_spec [VITE] ⟨UserAddr, "", "", 0, none⟩ VITE 3000).2 (by decide)⟩

theorem getExactIndex_le (sl : List ℚ) (x : ℚ) (i : ℕ) : getExactIndex sl x i ≤ i := by
  unfold getExactIndex
  split
  · exact Nat.le_refl i
  · omega

theorem getIndexInSectionRange_le_max (sl : List ℚ) (x : ℚ) :
    ∀ (fuel left right : ℕ), getIndexInSectionRange sl x fuel left right ≤ max left right := by
  intro fuel
  induction fuel with
  | zero =>
    intro left right
    exact le_trans (getExactIndex_le sl x left) (le_max_left _ _)
  | succ fuel ih =>
    intro left right
    rw [getIndexInSectionRange]
    by_cases h : left = right
    · rw [if_pos h]
      exact le_trans (getExactIndex_le sl x left) (le_max_left _ _)
    · rw [if_neg h]
      dsimp only
      have hmid : (left + right + 1) / 2 ≤ max left right := by
        rcases Nat.le_total left right with h1 | h1
        · rw [Nat.max_eq_right h1]; omega
        · rw [Nat.max_eq_left h1]; omega
      by_cases h2 : sl.getD ((left + right + 1) / 2) 0 = x
      · rw [if_pos h2]
        exact hmid
      · rw [if_neg h2]
        by_cases h3 : x < sl.getD ((left + right + 1) / 2) 0
        · rw [if_pos h3]
          exact le_trans (ih left ((left + right + 1) / 2 - 1))
            (max_le (le_max_left _ _) (le_trans (Nat.sub_le _ _) hmid))
        · rw [if_neg h3]
          exact le_trans (ih ((left + right + 1) / 2) right)
            (max_le hmid (le_max_right _ _))

theorem getIndexInSection_le (sl : List ℚ) (x : ℚ) :
    getIndexInSection sl x ≤ sl.length - 1 := by
  have h := getIndexInSectionRange_le_max sl x sl.length 0 (sl.length - 1)
  simpa using h

theorem calcQuotaV2Exit_fst_le (db : QuotaDb) (p : QuotaParams) (isPoW : Bool)
    (dfc qU : ℕ) (pb : Option QAccountBlock) :
    (calcQuotaV2Exit db p isPoW dfc qU pb).1 ≤ maxSectionQuantum p := by
  have hidx : ∀ x : ℚ, getIndexInSection p.sectionList x * p.quotaForSection ≤ maxSectionQuantum p :=
    fun x => Nat.mul_le_mul_right _ (getIndexInSection_le p.sectionList x)
  have hfin : ∀ (qt qwp : ℕ), qt ≤ maxSectionQuantum p →
      (if qt < qU then ((0 : ℕ), (0 : ℕ)) else (qt - qU, qt - qwp)).1 ≤ maxSectionQuantum p := by
    intro qt qwp h
    split
    · exact Nat.zero_le _
    · exact le_trans (Nat.sub_le _ _) h
  unfold calcQuotaV2Exit
  dsimp only
  refine hfin _ _ ?_
  split
  · exact hidx _
  · cases pb with
    | none => exact Nat.zero_le _
    | some b =>
      dsimp only
      split
      · exact Nat.zero_le _
      · exact hidx _

theorem calcQuotaV2Loop_fst_le (db : QuotaDb) (p : QuotaParams) (isPoW : Bool) :
    ∀ (chain : List QAccountBlock) (qU : ℕ) (flag : Bool) (dfc : ℕ),
      (calcQuotaV2Loop db p isPoW chain qU flag dfc).1 ≤ maxSectionQuantum p := by
  intro chain
  induction chain with
  | nil =>
    intro qU flag dfc
    rw [calcQuotaV2Loop]
    exact calcQuotaV2Exit_fst_le db p isPoW dfc qU none
  | cons b rest ih =>
    intro qU flag dfc
    rw [calcQuotaV2Loop]
    by_cases h1 : b.snapshotHash = db.currentSnapshotHash
    · rw [if_pos h1]
      dsimp only
      by_cases h2 : b.blockType = QBlockType.receiveError
      · rw [if_pos h2]
        exact Nat.zero_le _
      · rw [if_neg h2]
        by_cases h3 : IsPoW b.nonce = true
        · rw [if_pos h3, if_pos h3]
          exact Nat.zero_le _
        · rw [if_neg h3]
          exact ih _ _ _
    · rw [if_neg h1]
      exact calcQuotaV2Exit_fst_le db p isPoW dfc qU (some b)

/-- C7: counterexample.  CalcQuotaV2 applies no cap at the per-account ceiling
(contrast CalcQuotaV1, quota.go lines 74-87): with a section table whose
largest quantum exceeds the ceiling, a pledged account one snapshot past its
previous block is granted 1400000 quota, above the ceiling 1000000, so the
total quota returned is not capped at the ceiling. -/
theorem calcQuotaV2_exceeds_ceiling_counterexample :
    (CalcQuotaV2 ⟨1, 10, fun _ => 5, [⟨2, QBlockType.other, [], 0, 0⟩], 1⟩
      ⟨[0, 2, 4], 700000, 1, 1, 86400⟩ 0).1 = 1400000 ∧
    quotaLimit < 1400000 := by
  constructor
  · show (calcQuotaV2Loop _ _ false _ 0 false 0).1 = 1400000
    rw [calcQuotaV2Loop, if_neg (by decide)]
    rw [calcQuotaV2Exit_some_noPow _ _ _ _ _ (by decide) (Nat.zero_le _)]
    norm_num [getIndexInSection, getIndexInSectionRange, getExactIndex, sub64]
  · decide

/-- C7 (amended): for every database state, parameter record and difficulty,
the total quota CalcQuotaV2 returns never exceeds the largest quantum the
section table can produce, (length-1)*quotaForSection; since CalcQuotaV2
applies no cap at the per-account ceiling, the total stays within the ceiling
under the additional protocol-constant assumption that the largest quantum is
at most the ceiling. -/
theorem calcQuotaV2_quota_bound (db : QuotaDb) (p : QuotaParams) (difficulty : ℕ) :
    (CalcQuotaV2 db p difficulty).1 ≤ maxSectionQuantum p ∧
    (maxSectionQuantum p ≤ quotaLimit → (CalcQuotaV2 db p difficulty).1 ≤ quotaLimit) :=
  ⟨calcQuotaV2Loop_fst_le db p _ db.prevChain 0 false difficulty,
   fun hcap => le_trans (calcQuotaV2Loop_fst_le db p _ db.prevChain 0 false difficulty) hcap⟩

theorem calcQuotaV2_quota_bound_witness :
    maxSectionQuantum ⟨[0, 2, 4], 21000, 1, 1, 86400⟩ ≤ quotaLimit ∧
    (CalcQuotaV2 ⟨1, 10, fun _ => 0, [⟨2, QBlockType.other, [], 0, 0⟩], 7⟩
      ⟨[0, 2, 4], 21000, 1, 1, 86400⟩ 0).1 ≤ quotaLimit :=
  ⟨by decide,
   (calcQuotaV2_quota_bound ⟨1, 10, fun _ => 0, [⟨2, QBlockType.other, [], 0, 0⟩], 7⟩
     ⟨[0, 2, 4], 21000, 1, 1, 86400⟩ 0).2 (by decide)⟩

theorem pairwise_getD_lt (sl : List ℚ) (hmono : sl.Pairwise (· < ·)) :
    ∀ i j : ℕ, i < j → j < sl.length → sl.getD i 0 < sl.getD j 0 := by
  intro i j hij hj
  have hi : i < sl.length := lt_trans hij hj
  rw [List.getD_eq_getElem sl 0 hi, List.getD_eq_getElem sl 0 hj]
  exact List.pairwise_iff_getElem.mp hmono i j hi hj hij

theorem getIndexInSectionRange_spec (sl : List ℚ) (x : ℚ)
    (hm : ∀ i j : ℕ, i < j → j < sl.length → sl.getD i 0 < sl.getD j 0) :
    ∀ (fuel left right : ℕ), left ≤ right → right < sl.length → right - left < fuel →
      sl.getD left 0 ≤ x →
      (∀ j : ℕ, right < j → j < sl.length → x < sl.getD j 0) →
      left ≤ getIndexInSectionRange sl x fuel left right ∧
      getIndexInSectionRange sl x fuel left right ≤ right ∧
      sl.getD (getIndexInSectionRange sl x fuel left right) 0 ≤ x ∧
      (∀ j : ℕ, j ≤ right → sl.getD j 0 ≤ x → j ≤ getIndexInSectionRange sl x fuel left right) := by
  intro fuel
  induction fuel with
  | zero =>
    intro left right h1 h2 h3
    exact absurd h3 (by omega)
  | succ fuel ih =>
    intro left right h1 h2 h3 h4 h5
    rw [getIndexInSectionRange]
    by_cases heq : left = right
    · rw [if_pos heq]
      subst heq
      unfold getExactIndex
      rw [if_pos (Or.inl h4)]
      exact ⟨le_refl _, le_refl _, h4, fun j hj _ => hj⟩
    · rw [if_neg heq]
      dsimp only
      set mid := (left + right + 1) / 2 with hmiddef
      have hlm : left < mid := by omega
      have hmr : mid ≤ right := by omega
      by_cases hcmp : sl.getD mid 0 = x
      · rw [if_pos hcmp]
        refine ⟨by omega, hmr, le_of_eq hcmp, ?_⟩
        intro j hj hjx
        by_contra hc
        push_neg at hc
        have hlt2 := hm mid j hc (by omega)
        rw [hcmp] at hlt2
        exact absurd hjx (not_le.mpr hlt2)
      · rw [if_neg hcmp]
        by_cases hlt : x < sl.getD mid 0
        · rw [if_pos hlt]
          have hbnd : ∀ j : ℕ, mid - 1 < j → j < sl.length → x < sl.getD j 0 := by
            intro j hj hjlen
            by_cases hjr : j ≤ right
            · rcases Nat.eq_or_lt_of_le (show mid ≤ j by omega) with he | hl
              · rw [← he]
                exact hlt
              · exact lt_trans hlt (hm mid j hl (by omega))
            · exact h5 j (by omega) hjlen
          have hrec := ih left (mid - 1) (by omega) (by omega) (by omega) h4 hbnd
          refine ⟨hrec.1, le_trans hrec.2.1 (by omega), hrec.2.2.1, ?_⟩
          intro j hj hjx
          by_cases hjm : j ≤ mid - 1
          · exact hrec.2.2.2 j hjm hjx
          · exfalso
            rcases Nat.eq_or_lt_of_le (show mid ≤ j by omega) with he | hl
            · rw [← he] at hjx
              exact absurd hjx (not_le.mpr hlt)
            · exact absurd hjx (not_le.mpr (lt_trans hlt (hm mid j hl (by omega))))
        · rw [if_neg hlt]
          have hgt : sl.getD mid 0 < x := lt_of_le_of_ne (not_lt.mp hlt) hcmp
          have hrec := ih mid right hmr h2 (by omega) (le_of_lt hgt) h5
          exact ⟨le_trans (le_of_lt hlm) hrec.1, hrec.2.1, hrec.2.2.1,
                 fun j hj hjx => hrec.2.2.2 j hj hjx⟩

theorem getIndexInSectionRange_all_gt (sl : List ℚ) (x : ℚ) :
    ∀ (fuel right : ℕ), right < sl.length → right < fuel →
      (∀ j : ℕ, j ≤ right → x < sl.getD j 0) →
      getIndexInSectionRange sl x fuel 0 right = 0 := by
  intro fuel
  induction fuel with
  | zero =>
    intro right h1 h2 h3
    exact absurd h2 (by omega)
  | succ fuel ih =>
    intro right h1 h2 h3
    rw [getIndexInSectionRange]
    by_cases heq : (0 : ℕ) = right
    · rw [if_pos heq]
      unfold getExactIndex
      rw [if_pos (Or.inr rfl)]
    · rw [if_neg heq]
      dsimp only
      set mid := (0 + right + 1) / 2 with hmiddef
      have h0m : 0 < mid := by omega
      have hmr : mid ≤ right := by omega
      have hxm : x < sl.getD mid 0 := h3 mid hmr
      rw [if_neg (ne_of_gt hxm), if_pos hxm]
      exact ih (mid - 1) (by omega) (by omega) (fun j hj => h3 j (by omega))

/-- C8: for a strictly monotone increasing section table, getIndexInSection
returns the largest index i with sectionList[i] <= x whenever such an index
exists (x at least the first entry); for x below the first entry the recursion
bottoms out at index 0 and returns 0. -/
theorem getIndexInSection_largest (sl : List ℚ) (x : ℚ)
    (hmono : sl.Pairwise (· < ·)) (hne : sl ≠ []) :
    (sl.getD 0 0 ≤ x →
      getIndexInSection sl x < sl.length ∧
      sl.getD (getIndexInSection sl x) 0 ≤ x ∧
      (∀ j : ℕ, j < sl.length → sl.getD j 0 ≤ x → j ≤ getIndexInSection sl x)) ∧
    (x < sl.getD 0 0 → getIndexInSection sl x = 0) := by
  have hm := pairwise_getD_lt sl hmono
  have hlen : 0 < sl.length := List.length_pos.mpr hne
  constructor
  · intro hx
    unfold getIndexInSection
    have h := getIndexInSectionRange_spec sl x hm sl.length 0 (sl.length - 1)
      (by omega) (by omega) (by omega) hx
      (by intro j hj hjlen; exact absurd hjlen (by omega))
    exact ⟨by have := h.2.1; omega, h.2.2.1,
           fun j hj hjx => h.2.2.2 j (by omega) hjx⟩
  · intro hx
    unfold getIndexInSection
    refine getIndexInSectionRange_all_gt sl x sl.length (sl.length - 1)
      (by omega) (by omega) ?_
    intro j hj
    rcases Nat.eq_zero_or_pos j with h0 | h0
    · rw [h0]
      exact hx
    · exact lt_trans hx (hm 0 j h0 (by omega))

theorem getIndexInSection_largest_witness :
    List.Pairwise (· < ·) ([0, 1, 2, 5] : List ℚ) ∧
    ([0, 1, 2, 5] : List ℚ) ≠ [] ∧
    List.getD ([0, 1, 2, 5] : List ℚ) 0 0 ≤ 3 ∧
    getIndexInSection [0, 1, 2, 5] 3 < 4 ∧
    List.getD ([0, 1, 2, 5] : List ℚ) (getIndexInSection [0, 1, 2, 5] 3) 0 ≤ 3 := by
  have hp : List.Pairwise (· < ·) ([0, 1, 2, 5] : List ℚ) := by
    norm_num [List.pairwise_cons]
  have hne : ([0, 1, 2, 5] : List ℚ) ≠ [] := by simp
  have hx : List.getD ([0, 1, 2, 5] : List ℚ) 0 0 ≤ 3 := by norm_num [List.getD]
  have h := (getIndexInSection_largest [0, 1, 2, 5] 3 hp hne).1 hx
  exact ⟨hp, hne, hx, by simpa using h.1, h.2.1⟩

/-- Sell order of scenario S3 as submitted (status FullyExecuted, amount 0). -/
def s3order : Order :=
  ⟨1, UserAddr, VITE, ETH, true, 0, 3 / 100, 2000, 0, OrderStatus.FullyExecuted, 42⟩

/-- Normalized sell order of scenario S3 after DoSend. -/
def s3sent : Order :=
  ⟨1, UserAddr, VITE, ETH, true, 0, 3 / 100, 2000, 60, OrderStatus.Pending, 0⟩

/-- C2: NewOrder on a sell order: after DoSend the payload decodes to an order
with status Pending and amount quantity*price (60 for the S3 inputs price 0.03,
quantity 2000); after DoReceive the fund entry of the trade asset has lost
quantity from available and gained quantity on locked (S3: 800/2000), and
exactly one block is appended, addressed to AddressDexTrade. -/
theorem newOrderSell_spec :
    (newOrderDoSend [VITE, ETH] s3order 0 1 = Except.ok s3sent ∧
     s3sent.status = OrderStatus.Pending ∧ s3sent.amount = 60) ∧
    (∀ (fund : Fund) (o : Order) (av lk : ℕ), o.side = true →
      findAccount fund.accounts o.tradeAsset = some ⟨o.tradeAsset, av, lk⟩ →
      o.quantity ≤ av →
      newOrderDoReceive fund o =
        Except.ok (⟨setAccount fund.accounts o.tradeAsset (av - o.quantity) (lk + o.quantity)⟩,
          [⟨AddressDexFund, AddressDexTrade, o.tradeAsset, 0, some o⟩])) ∧
    newOrderDoReceive ⟨[⟨VITE, 2800, 0⟩]⟩ s3sent =
      Except.ok (⟨[⟨VITE, 800, 2000⟩]⟩,
        [⟨AddressDexFund, AddressDexTrade, VITE, 0, some s3sent⟩]) := by
  refine ⟨⟨?_, rfl, rfl⟩, ?_, ?_⟩
  · unfold newOrderDoSend
    rw [if_pos (by constructor <;> decide),
      if_neg (by push_neg; exact ⟨by decide, by norm_num [s3order], by decide, by decide⟩)]
    have hamt : (roundHalfEven ((s3order.quantity : ℚ) * s3order.price)).toNat = 60 := by
      have h1 : ((s3order.quantity : ℕ) : ℚ) * s3order.price = 60 := by
        norm_num [s3order]
      rw [h1]
      have h2 : roundHalfEven 60 = 60 := by norm_num [roundHalfEven]
      rw [h2]
      decide
    rw [hamt]
    rfl
  · intro fund o av lk hside hfind hle
    unfold newOrderDoReceive lockAssetAmount
    rw [hside, if_pos rfl]
    dsimp only
    rw [hfind]
    dsimp only [Option.getD_some]
    rw [if_pos hle]
  · rfl

theorem newOrderSell_spec_witness :
    s3sent.side = true ∧
    findAccount (Fund.mk [⟨VITE, 2800, 0⟩]).accounts s3sent.tradeAsset =
      some ⟨s3sent.tradeAsset, 2800, 0⟩ ∧
    s3sent.quantity ≤ 2800 ∧
    newOrderDoReceive ⟨[⟨VITE, 2800, 0⟩]⟩ s3sent =
      Except.ok (⟨setAccount (Fund.mk [⟨VITE, 2800, 0⟩]).accounts s3sent.tradeAsset
          (2800 - s3sent.quantity) (0 + s3sent.quantity)⟩,
        [⟨AddressDexFund, AddressDexTrade, s3sent.tradeAsset, 0, some s3sent⟩]) :=
  ⟨rfl, rfl, by decide,
   newOrderSell_spec.2.1 ⟨[⟨VITE, 2800, 0⟩]⟩ s3sent 2800 0 rfl rfl (by decide)⟩

/-- C3: SettleOrders.DoReceive applies each action to the target fund by
looking up or creating the fund record and asset entry and then setting
available += inc_available - dec_available and locked += inc_locked -
dec_locked; in the S4 scenario (from the S3 state, dec_locked 1000 on VITE
and inc_available 30 on ETH) the fund ends with VITE available 800 locked
1000 and a newly created ETH entry available 30 locked 0. -/
theorem settleOrders_spec :
    (∀ (store : FundStore) (act : SettleAction) (av lk : ℕ),
      findAccount (getFund store act.address).accounts act.asset = some ⟨act.asset, av, lk⟩ →
      act.decAvailable ≤ av + act.incAvailable →
      act.decLocked ≤ lk + act.incLocked →
      applySettleAction store act = Except.ok (setFund store act.address
        ⟨setAccount (getFund store act.address).accounts act.asset
          (av + act.incAvailable - act.decAvailable) (lk + act.incLocked - act.decLocked)⟩)) ∧
    settleOrdersDoReceive [(UserAddr, ⟨[⟨VITE, 800, 2000⟩]⟩)]
      [⟨UserAddr, VITE, 0, 0, 0, 1000⟩, ⟨UserAddr, ETH, 30, 0, 0, 0⟩] =
      Except.ok [(UserAddr, ⟨[⟨VITE, 800, 1000⟩, ⟨ETH, 30, 0⟩]⟩)] := by
  constructor
  · intro store act av lk hfind hav hlk
    unfold applySettleAction
    dsimp only
    rw [hfind]
    dsimp only [Option.getD_some]
    rw [if_neg (not_or.mpr ⟨by omega, by omega⟩)]
    have h1 : ((av : ℤ) + act.incAvailable - act.decAvailable).toNat =
        av + act.incAvailable - act.decAvailable := by omega
    have h2 : ((lk : ℤ) + act.incLocked - act.decLocked).toNat =
        lk + act.incLocked - act.decLocked := by omega
    rw [h1, h2]
  · rfl

theorem settleOrders_spec_witness :
    findAccount (getFund [(UserAddr, ⟨[⟨VITE, 800, 2000⟩]⟩)]
        (SettleAction.mk UserAddr VITE 0 0 0 1000).address).accounts
      (SettleAction.mk UserAddr VITE 0 0 0 1000).asset = some ⟨VITE, 800, 2000⟩ ∧
    (SettleAction.mk UserAddr VITE 0 0 0 1000).decAvailable ≤ 800 + 0 ∧
    (SettleAction.mk UserAddr VITE 0 0 0 1000).decLocked ≤ 2000 + 0 ∧
    applySettleAction [(UserAddr, ⟨[⟨VITE, 800, 2000⟩]⟩)]
        (SettleAction.mk UserAddr VITE 0 0 0 1000) =
      Except.ok (setFund [(UserAddr, ⟨[⟨VITE, 800, 2000⟩]⟩)] UserAddr
        ⟨setAccount (getFund [(UserAddr, ⟨[⟨VITE, 800, 2000⟩]⟩)] UserAddr).accounts VITE
          (800 + 0 - 0) (2000 + 0 - 1000)⟩) :=
  ⟨rfl, by decide, by decide,
   settleOrders_spec.1 [(UserAddr, ⟨[⟨VITE, 800, 2000⟩]⟩)]
     (SettleAction.mk UserAddr VITE 0 0 0 1000) 800 2000 rfl (by decide) (by decide)⟩
